import Mathlib

/-!
# Verification of `raindrops-to-obsidian-clipper.py`

Shallow embedding of the record-to-document conversion pipeline:
`sanitize_filename`, `extract_domain` (with a model of CPython's
`urllib.parse.urlparse(...).netloc`), `format_tags`, `format_date`
(with a model of `datetime.fromisoformat` restricted to unsigned
decimal digit components), `create_markdown_content` and the batch
driver `convert_csv_to_markdown`.

Strings are modelled as Lean `String` / `List Char` (Python `str` is a
sequence of code points, as is `String.data`).  Python's character
classes (`\w`, `\s`, `str.lower`, `str.strip`) are exact on the ASCII
range; their behaviour on code points ≥ 0x80 is taken as a parameter
(`PyOracle`), so every theorem below holds for *any* interpretation of
the non-ASCII part of the Unicode tables.
-/

/-- Abstracts the Unicode tables consulted by CPython for code points
outside the ASCII range, plus the two netloc validation checks of
`urllib.parse` that depend on `ipaddress` / NFKC normalization. -/
structure PyOracle where
  /-- membership of a char ≥ 0x80 in the regex class `\w` -/
  wordExt : Char → Bool
  /-- whitespace-ness of a char ≥ 0x80 (`\s`, `str.strip`, `str.isspace`) -/
  spaceExt : Char → Bool
  /-- `str.lower` on a char ≥ 0x80 (modelled as a char-to-char map) -/
  lowerExt : Char → Char
  /-- whether `_check_bracketed_host` accepts a bracketed netloc host -/
  bracketedHostOk : String → Bool
  /-- whether `_checknetloc` accepts a non-ASCII netloc (NFKC check) -/
  netlocNfkcOk : String → Bool

/-- A fixed interpretation of the oracle, used to state closed facts
(ASCII-only inputs never consult the oracle, so the choice is moot
there). -/
def O0 : PyOracle :=
  { wordExt := fun _ => false
    spaceExt := fun _ => false
    lowerExt := fun c => c
    bracketedHostOk := fun _ => false
    netlocNfkcOk := fun _ => true }

/-- Python whitespace (`\s` / `str.strip` / `str.isspace`).  On ASCII:
tab, LF, VT, FF, CR (9–13), FS, GS, RS, US (28–31) and space (32). -/
def isSpacePy (O : PyOracle) (c : Char) : Bool :=
  if c.toNat < 128 then
    (9 ≤ c.toNat && c.toNat ≤ 13) || c.toNat == 32 ||
      (28 ≤ c.toNat && c.toNat ≤ 31)
  else O.spaceExt c

/-- Python regex `\w`.  On ASCII: letters, digits and underscore. -/
def isWordPy (O : PyOracle) (c : Char) : Bool :=
  if c.toNat < 128 then c.isAlphanum || c == '_' else O.wordExt c

/-- `str.lower`, one char at a time (ASCII exact). -/
def lowerChar (O : PyOracle) (c : Char) : Char :=
  if c.toNat < 128 then c.toLower else O.lowerExt c

/-- `str.lower`. -/
def lowerPy (O : PyOracle) (s : String) : String :=
  ⟨s.data.map (lowerChar O)⟩

/-- Drop a matching suffix: `l` with its longest all-`p` suffix removed. -/
def rstripL (p : Char → Bool) (l : List Char) : List Char :=
  (l.reverse.dropWhile p).reverse

/-- `str.strip()` on a char list. -/
def stripL (O : PyOracle) (l : List Char) : List Char :=
  rstripL (isSpacePy O) (l.dropWhile (isSpacePy O))

/-- `str.strip()`. -/
def stripPy (O : PyOracle) (s : String) : String :=
  ⟨stripL O s.data⟩

/-- The reserved path characters removed by `re.sub(r'[<>:"/\\|?*]', '', ·)`. -/
def reservedChars : List Char := ['<', '>', ':', '"', '/', '\\', '|', '?', '*']

/-- The explicitly allowed punctuation of `sanitize_filename`'s second
regex class `[^\w\s\-_.,()[\]{}#@&+=!~]`. -/
def allowedPunct : List Char :=
  ['-', '_', '.', ',', '(', ')', '[', ']', '{', '}', '#', '@', '&', '+', '=', '!', '~']

/-- A char surviving `re.sub(r'[^\w\s\-_.,()[\]{}#@&+=!~]', '', ·)`. -/
def isAllowedChar (O : PyOracle) (c : Char) : Bool :=
  isWordPy O c || isSpacePy O c || c ∈ allowedPunct

/-- `re.sub(r'\s+', ' ', ·)`: each maximal run of whitespace becomes a
single ASCII space. -/
def collapseWs (O : PyOracle) : List Char → List Char
  | [] => []
  | [c] => if isSpacePy O c then [' '] else [c]
  | c :: d :: rest =>
    if isSpacePy O c && isSpacePy O d then collapseWs O (d :: rest)
    else (if isSpacePy O c then ' ' else c) :: collapseWs O (d :: rest)

/-- `sanitize_filename` from the source: reserved chars removed, the
complement of the allowed class removed, whitespace collapsed and
stripped, truncation to 250 chars with a trailing `rstrip`, and the
`Untitled` fallbacks for empty input / empty result. -/
def sanitize_filename (O : PyOracle) (title : String) : String :=
  if stripL O title.data = [] then "Untitled"
  else
    let s1 := title.data.filter (fun c => !(c ∈ reservedChars))
    let s2 := s1.filter (isAllowedChar O)
    let s3 := stripL O (collapseWs O s2)
    let s4 := if 250 < s3.length then rstripL (isSpacePy O) (s3.take 250) else s3
    if s4 = [] then "Untitled" else ⟨s4⟩

example : sanitize_filename O0 "" = "Untitled" := by decide
example : sanitize_filename O0 "  a<b>:c  d  " = "abc d" := by decide
example : sanitize_filename O0 "Untitled" = "Untitled" := rfl

/-! ## Domain extraction (`urllib.parse` netloc model) -/

/-- Core loop of `str.replace`: scan left to right, replacing each
non-overlapping occurrence of `pat` (assumed non-empty) by `rep`.
The `Nat` fuel, initialised to the list length, makes the recursion
structural. -/
def replaceAllAux (pat rep : List Char) : Nat → List Char → List Char
  | _, [] => []
  | 0, l => l
  | Nat.succ n, c :: rest =>
    if pat.isPrefixOf (c :: rest) then
      rep ++ replaceAllAux pat rep n (rest.drop (pat.length - 1))
    else c :: replaceAllAux pat rep n rest

/-- Python `s.replace(pat, rep)` for a non-empty `pat`. -/
def pyReplace (s pat rep : String) : String :=
  ⟨replaceAllAux pat.data rep.data s.data.length s.data⟩

example : pyReplace "wwww.x" "www." "" = "wx" := by decide
example : pyReplace "www.example.www.com" "www." "" = "example.com" := by decide

/-- Characters allowed in a URL scheme (`scheme_chars` of `urllib.parse`). -/
def schemeChar (c : Char) : Bool :=
  c.isAlpha || c.isDigit || c == '+' || c == '-' || c == '.'

/-- `urlparse(url).netloc`, following CPython's `urlsplit`:
leading C0-control/space chars stripped, tab/CR/LF removed everywhere,
a valid `scheme:` prefix dropped, then — only when the remainder starts
with `//` — the netloc runs up to the next `/`, `?` or `#`.  `none`
models the `ValueError`s raised by the bracketed-host and NFKC netloc
checks. -/
def pyNetloc (O : PyOracle) (url : String) : Option String :=
  let u0 := url.data.dropWhile (fun c => c.toNat ≤ 32)
  let u1 := u0.filter (fun c => !(c == '\t' || c == '\r' || c == '\n'))
  let u2 :=
    match u1.findIdx? (fun c => c == ':') with
    | some i =>
      if 0 < i && (u1.take i).all schemeChar &&
          (match u1.head? with | some c => c.isAlpha | none => false)
      then u1.drop (i + 1) else u1
    | none => u1
  if u2.take 2 = ['/', '/'] then
    let netl := (u2.drop 2).takeWhile (fun c => !(c == '/' || c == '?' || c == '#'))
    let hasL := netl.any (fun c => c == '[')
    let hasR := netl.any (fun c => c == ']')
    if hasL != hasR then none
    else if hasL &&
        !(O.bracketedHostOk ⟨((netl.dropWhile (fun c => c != '[')).drop 1).takeWhile
            (fun c => c != ']')⟩) then none
    else if !(netl = []) && !(netl.all (fun c => c.toNat < 128)) &&
        !(O.netlocNfkcOk ⟨netl⟩) then none
    else some ⟨netl⟩
  else some ""

/-- `extract_domain` from the source: empty/whitespace-only URL gives
`''`; a `ValueError` from parsing is swallowed to `''`; otherwise every
occurrence of the substring `www.` is removed from the netloc
(`str.replace` replaces all occurrences). -/
def extract_domain (O : PyOracle) (url : String) : String :=
  if url = "" || stripPy O url = "" then ""
  else
    match pyNetloc O url with
    | none => ""
    | some d => if d = "" then "" else pyReplace d "www." ""

/-- Modelled from the spec's words (for comparison with the code's
behaviour): "strip a leading `www.` prefix" — remove `www.` only when
it is a prefix of the host, leaving every other character untouched. -/
def stripLeadingWww (host : String) : String :=
  if ['w', 'w', 'w', '.'].isPrefixOf host.data then ⟨host.data.drop 4⟩ else host

example : extract_domain O0 "https://www.example.com/a/b" = "example.com" := by decide
example : extract_domain O0 "" = "" := by decide
example : extract_domain O0 "not a url" = "" := by decide
example : extract_domain O0 "https://en.www.example.com/a" = "en.example.com" := by decide
example : pyNetloc O0 "https://en.www.example.com/a" = some "en.www.example.com" := by decide

/-! ## Tag formatting -/

/-- `folder.lower().replace(' ', '-')` / tag normalization: lower-case
then hyphenate spaces (a one-char `str.replace` is a char map). -/
def hyphenateLower (O : PyOracle) (s : String) : String :=
  ⟨(lowerPy O s).data.map (fun c => if c = ' ' then '-' else c)⟩

/-- Python `s.split(',')` on the char level (`''.split(',') == ['']`,
empty pieces kept). -/
def splitComma : List Char → List (List Char)
  | [] => [[]]
  | c :: rest =>
    if c = ',' then [] :: splitComma rest
    else
      match splitComma rest with
      | [] => [[c]]
      | h :: t => (c :: h) :: t

/-- Python `s.split(',')`. -/
def pySplitComma (s : String) : List String :=
  (splitComma s.data).map String.mk

example : pySplitComma "" = [""] := by decide
example : pySplitComma "a, b,,c" = ["a", " b", "", "c"] := by decide

/-- The source's duplicate-removal loop: walk the list, appending each
element not already in the accumulator. -/
def dedupKeepFirst : List String → List String → List String
  | acc, [] => acc
  | acc, t :: ts =>
    if t ∈ acc then dedupKeepFirst acc ts else dedupKeepFirst (acc ++ [t]) ts

/-- `format_tags` from the source: constant `clippings` tag, then the
folder tag (unless the folder is empty or case-insensitively
`unsorted`), then each non-empty trimmed comma-separated piece of the
raw tags string, normalized; duplicates removed keeping the first
occurrence. -/
def format_tags (O : PyOracle) (tags_str folder : String) : List String :=
  let tags0 := ["clippings"]
  let tags1 :=
    if folder ≠ "" ∧ lowerPy O folder ≠ "unsorted" then
      tags0 ++ [hyphenateLower O folder]
    else tags0
  let tags2 :=
    if tags_str ≠ "" ∧ stripPy O tags_str ≠ "" then
      tags1 ++ ((pySplitComma tags_str).filter (fun t => stripPy O t ≠ "")).map
        (fun t => hyphenateLower O (stripPy O t))
    else tags1
  dedupKeepFirst [] tags2

example : format_tags O0 "" "" = ["clippings"] := by decide
example : format_tags O0 "AI, ai , Tech News" "Tech News" =
    ["clippings", "tech-news", "ai"] := by decide
example : format_tags O0 "CLIPPINGS" "Unsorted" = ["clippings"] := by decide

/-! ## Date formatting (`datetime.fromisoformat` model) -/

/-- `int()` on a component, restricted to non-empty all-digit strings
(the sign/whitespace/underscore forms `int` also accepts never arise
from well-formed timestamps and are modelled as failures). -/
def digitsToNat? (l : List Char) : Option Nat :=
  if l ≠ [] ∧ l.all Char.isDigit then
    some (l.foldl (fun n c => n * 10 + (c.toNat - 48)) 0)
  else none

/-- Two-digit component. -/
def digits2? (c1 c2 : Char) : Option Nat := digitsToNat? [c1, c2]

/-- Gregorian leap year (as in `datetime`). -/
def isLeapYear (y : Nat) : Bool :=
  y % 4 == 0 && (y % 100 != 0 || y % 400 == 0)

/-- Days in a month (as in `datetime`). -/
def daysInMonth (y m : Nat) : Nat :=
  if m = 2 then (if isLeapYear y then 29 else 28)
  else if m ∈ [4, 6, 9, 11] then 30
  else 31

/-- `_parse_isoformat_date` on the 10-char date slice: `YYYY-MM-DD`
with all-digit components. -/
def parseIsoDate? : List Char → Option (Nat × Nat × Nat)
  | [y1, y2, y3, y4, s1, m1, m2, s2, d1, d2] =>
    if s1 = '-' ∧ s2 = '-' then do
      let y ← digitsToNat? [y1, y2, y3, y4]
      let m ← digits2? m1 m2
      let d ← digits2? d1 d2
      some (y, m, d)
    else none
  | _ => none

/-- `_parse_hh_mm_ss_ff`: `HH[:MM[:SS[.fff[fff]]]]`, returning
(hour, minute, second, microsecond). -/
def parseHMSF? : List Char → Option (Nat × Nat × Nat × Nat)
  | h1 :: h2 :: rest => do
    let hh ← digits2? h1 h2
    match rest with
    | [] => some (hh, 0, 0, 0)
    | ':' :: m1 :: m2 :: rest2 => do
      let mm ← digits2? m1 m2
      match rest2 with
      | [] => some (hh, mm, 0, 0)
      | ':' :: s1 :: s2 :: rest3 => do
        let ss ← digits2? s1 s2
        match rest3 with
        | [] => some (hh, mm, ss, 0)
        | '.' :: fr => do
          let f ← digitsToNat? fr
          if fr.length = 3 then some (hh, mm, ss, f * 1000)
          else if fr.length = 6 then some (hh, mm, ss, f)
          else none
        | _ => none
      | _ => none
    | _ => none
  | _ => none

/-- `_parse_isoformat_time`: time-of-day, optionally followed by a
`±HH:MM[:SS[.ffffff]]` offset whose magnitude must stay strictly below
24 hours (`timezone`'s constructor check).  Only success matters to
`format_date`, so the result is the validated time components. -/
def parseIsoTime? (t : List Char) : Option (Nat × Nat × Nat × Nat) :=
  if t.length < 2 then none
  else
    let tzIdx :=
      match t.findIdx? (fun c => c == '-') with
      | some i => some i
      | none => t.findIdx? (fun c => c == '+')
    match tzIdx with
    | none => parseHMSF? t
    | some i => do
      let tc ← parseHMSF? (t.take i)
      let tzstr := t.drop (i + 1)
      if tzstr.length = 5 ∨ tzstr.length = 8 ∨ tzstr.length = 15 then do
        let (th, tm, ts, tf) ← parseHMSF? tzstr
        if (th * 3600 + tm * 60 + ts) * 1000000 + tf < 24 * 3600 * 1000000 then
          some tc
        else none
      else none

/-- `datetime.fromisoformat`: the first 10 chars are the date, char 10
(any separator) is skipped, the rest is the time; the `datetime`
constructor's range checks are applied.  A bare date must be exactly
10 chars. -/
def fromisoformat? (s : String) : Option (Nat × Nat × Nat) := do
  let l := s.data
  let (y, m, d) ← parseIsoDate? (l.take 10)
  if 1 ≤ y ∧ y ≤ 9999 ∧ 1 ≤ m ∧ m ≤ 12 ∧ 1 ≤ d ∧ d ≤ daysInMonth y m then
    if l.length = 10 then some (y, m, d)
    else if 12 ≤ l.length then do
      let (hh, mm, ss, ff) ← parseIsoTime? (l.drop 11)
      if hh ≤ 23 ∧ mm ≤ 59 ∧ ss ≤ 59 ∧ ff ≤ 999999 then some (y, m, d)
      else none
    else none
  else none

/-- Zero-pad a number to two digits (`%m`, `%d`). -/
def pad2 (n : Nat) : String := if n < 10 then "0" ++ toString n else toString n

/-- `dt.strftime('%Y-%m-%d')` (glibc: `%Y` unpadded, `%m`/`%d` padded). -/
def fmtYMD (y m d : Nat) : String :=
  toString y ++ "-" ++ pad2 m ++ "-" ++ pad2 d

/-- `format_date` from the source: empty/whitespace-only gives `''`,
every `Z` is replaced by `+00:00`, the result is parsed with
`fromisoformat` and printed as `YYYY-MM-DD`; any parse error is
swallowed to `''`. -/
def format_date (O : PyOracle) (date_str : String) : String :=
  if date_str = "" || stripPy O date_str = "" then ""
  else
    match fromisoformat? (pyReplace date_str "Z" "+00:00") with
    | none => ""
    | some (y, m, d) => fmtYMD y m d

example : format_date O0 "2023-05-01T12:00:00Z" = "2023-05-01" := by decide
example : format_date O0 "2023-05-01" = "2023-05-01" := by decide
example : format_date O0 "garbage" = "" := by decide
example : format_date O0 "2023-13-01" = "" := by decide
example : format_date O0 "2023-02-29" = "" := by decide
example : format_date O0 "2024-02-29" = "2024-02-29" := by decide

/-! ## Document assembly -/

/-- One input CSV row.  `row.get(key, '')` makes every recognized field
a total string field with `""` for an absent column. -/
structure Record where
  title : String := ""
  url : String := ""
  excerpt : String := ""
  note : String := ""
  tags : String := ""
  folder : String := ""
  created : String := ""
  cover : String := ""
  highlights : String := ""
deriving DecidableEq

/-- `excerpt.replace('"', '\\"').replace('\n', ' ')`: escape double
quotes and collapse newlines for the `description:` value. -/
def escapeExcerpt (s : String) : List Char :=
  (s.data.flatMap (fun c => if c = '"' then ['\\', '"'] else [c])).map
    (fun c => if c = '\n' then ' ' else c)

/-- The YAML front matter (`yaml_lines`) of `create_markdown_content`,
one list element per emitted line. -/
def metadataLines (O : PyOracle) (row : Record) : List String :=
  let title := stripPy O row.title
  let url := stripPy O row.url
  let excerpt := stripPy O row.excerpt
  let domain := extract_domain O url
  let author := if domain ≠ "" then "[[" ++ domain ++ "]]" else ""
  let formatted_date := format_date O (stripPy O row.created)
  ["---"]
  ++ (if author ≠ "" then ["author:", "- '" ++ author ++ "'"] else [])
  ++ (if formatted_date ≠ "" then ["created: '" ++ formatted_date ++ "'"] else [])
  ++ (if excerpt ≠ "" then ["description: " ++ String.mk (escapeExcerpt excerpt)] else [])
  ++ ["published: ''"]
  ++ (if url ≠ "" then ["source: " ++ url] else [])
  ++ ["tags:"]
  ++ (format_tags O (stripPy O row.tags) (stripPy O row.folder)).map (fun t => "- " ++ t)
  ++ ["title: " ++ title, "---"]

/-- The body sections appended after the front matter: Summary (if
excerpt or note), Highlights (if highlights), Source (if url). -/
def bodyLines (O : PyOracle) (row : Record) : List String :=
  let url := stripPy O row.url
  let excerpt := stripPy O row.excerpt
  let note := stripPy O row.note
  let highlights := stripPy O row.highlights
  (if excerpt ≠ "" ∨ note ≠ "" then
    ["", "## Summary", ""]
    ++ (if excerpt ≠ "" then [excerpt] else [])
    ++ (if note ≠ "" then (if excerpt ≠ "" then [""] else []) ++ [note] else [])
  else [])
  ++ (if highlights ≠ "" ∧ stripPy O highlights ≠ "" then
    ["", "## Highlights", "", highlights]
  else [])
  ++ (if url ≠ "" then
    ["", "## Source", "", "[View Original](" ++ url ++ ")"]
  else [])

/-- All lines of the produced document. -/
def contentLines (O : PyOracle) (row : Record) : List String :=
  metadataLines O row ++ bodyLines O row

/-- `create_markdown_content`: the document as a single string,
`'\n'.join(content_lines)`. -/
def create_markdown_content (O : PyOracle) (row : Record) : String :=
  String.intercalate "\n" (contentLines O row)

example :
    contentLines O0 { title := " Hello ", url := "https://www.ex.com/p" } =
      ["---", "author:", "- '[[ex.com]]'", "published: ''",
       "source: https://www.ex.com/p", "tags:", "- clippings",
       "title: Hello", "---", "", "## Source", "",
       "[View Original](https://www.ex.com/p)"] := by decide

example :
    contentLines O0 {} =
      ["---", "published: ''", "tags:", "- clippings", "title: ", "---"] := by
  decide

/-! ## Batch driver -/

/-- The input source as the driver sees it: either the initial
`open` fails, or it yields a stream of events, each of which is a
decoded record or a read/decode error raised while iterating. -/
structure CsvSource where
  openOk : Bool
  events : List (Except Unit Record)

/-- The outcome of one driver run: the pair that
`convert_csv_to_markdown` returns, and — separately, since it is a
filesystem effect and not part of the return value — the names of the
files written. -/
structure BatchResult where
  returned : Nat × Nat
  filesWritten : List String
deriving DecidableEq

/-- The filename the driver builds for a row: the stripped title (or
`Untitled` when empty), sanitized, plus `.md`. -/
def outputFilename (O : PyOracle) (row : Record) : String :=
  let title := if stripPy O row.title = "" then "Untitled" else stripPy O row.title
  sanitize_filename O title ++ ".md"

/-- The per-record loop of the driver.  `wOk` says whether writing a
given record's file succeeds; a failed write is caught, counted as a
failed conversion, and the loop continues. -/
def processRows (O : PyOracle) (wOk : Record → Bool) :
    List Record → Nat × Nat × List String
  | [] => (0, 0, [])
  | r :: rs =>
    let (s, f, files) := processRows O wOk rs
    if wOk r then (s + 1, f, outputFilename O r :: files)
    else (s, f + 1, files)

/-- `convert_csv_to_markdown`: if the source cannot be opened, or any
read error occurs (the row-counting pass `sum(1 for _ in reader)`
iterates the whole source before any record is processed, so a read
error anywhere surfaces before the first write), the driver returns
`(0, 1)` having written nothing.  Otherwise every record is processed
in order and the two counts are returned. -/
def convert_csv_to_markdown (O : PyOracle) (wOk : Record → Bool)
    (src : CsvSource) : BatchResult :=
  if !src.openOk then { returned := (0, 1), filesWritten := [] }
  else if src.events.any (fun e => match e with | .error _ => true | .ok _ => false) then
    { returned := (0, 1), filesWritten := [] }
  else
    let recs := src.events.filterMap (fun e => match e with | .ok r => some r | .error _ => none)
    let (s, f, files) := processRows O wOk recs
    { returned := (s, f), filesWritten := files }

example :
    convert_csv_to_markdown O0 (fun _ => true)
      { openOk := true, events := [.ok { title := "A" }, .ok {}] } =
      { returned := (2, 0), filesWritten := ["A.md", "Untitled.md"] } := by decide

example :
    convert_csv_to_markdown O0 (fun _ => true)
      { openOk := true, events := [.ok { title := "A" }, .error ()] } =
      { returned := (0, 1), filesWritten := [] } := by decide

/-! ## Helper lemmas -/

lemma processRows_spec (O : PyOracle) (wOk : Record → Bool) (rs : List Record) :
    processRows O wOk rs =
      ((rs.filter wOk).length, (rs.filter (fun r => !wOk r)).length,
        (rs.filter wOk).map (outputFilename O)) := by
  induction rs with
  | nil => rfl
  | cons r rs ih =>
    by_cases h : wOk r = true <;>
      simp [processRows, ih, List.filter_cons, h]

lemma convert_rows_spec (O : PyOracle) (wOk : Record → Bool) (rs : List Record) :
    convert_csv_to_markdown O wOk { openOk := true, events := rs.map .ok } =
      { returned := ((rs.filter wOk).length, (rs.filter (fun r => !wOk r)).length)
        filesWritten := (rs.filter wOk).map (outputFilename O) } := by
  have hany : (rs.map (Except.ok (ε := Unit))).any
      (fun e => match e with | .error _ => true | .ok _ => false) = false := by
    simp [List.any_map, Function.comp]
  have hfm : (rs.map (Except.ok (ε := Unit))).filterMap
      (fun e => match e with | .ok r => some r | .error _ => none) = rs := by
    rw [List.filterMap_map]
    exact List.filterMap_some rs
  simp [convert_csv_to_markdown, hany, hfm, processRows_spec]

lemma mem_dedupKeepFirst {x : String} :
    ∀ (l acc : List String), x ∈ dedupKeepFirst acc l ↔ x ∈ acc ∨ x ∈ l := by
  intro l
  induction l with
  | nil => intro acc; simp [dedupKeepFirst]
  | cons t ts ih =>
    intro acc
    by_cases h : t ∈ acc
    · have hx : x ∈ acc ∨ x = t → x ∈ acc := by
        rintro (hx | rfl)
        · exact hx
        · exact h
      simp only [dedupKeepFirst, if_pos h, ih, List.mem_cons]
      constructor
      · rintro (hx | hx)
        · exact Or.inl hx
        · exact Or.inr (Or.inr hx)
      · rintro (hx | rfl | hx)
        · exact Or.inl hx
        · exact Or.inl h
        · exact Or.inr hx
    · simp only [dedupKeepFirst, if_neg h, ih, List.mem_append, List.mem_singleton,
        List.mem_cons]
      tauto

lemma nodup_dedupKeepFirst :
    ∀ (l acc : List String), acc.Nodup → (dedupKeepFirst acc l).Nodup := by
  intro l
  induction l with
  | nil => intro acc h; exact h
  | cons t ts ih =>
    intro acc hacc
    by_cases h : t ∈ acc
    · simpa [dedupKeepFirst, if_pos h] using ih acc hacc
    · rw [dedupKeepFirst, if_neg h]
      refine ih (acc ++ [t]) ?_
      simp [List.nodup_append, hacc, h]

lemma head?_append_left (s : String) {c : Char} (h : s.data.head? = some c)
    (t : String) : (s ++ t).data.head? = some c := by
  rw [String.data_append]
  cases hs : s.data with
  | nil => rw [hs] at h; simp at h
  | cons a l => rw [hs] at h; simpa using h

lemma append_head_ne_hash (s : String) {c : Char} (hc : c ≠ '#')
    (hs : s.data.head? = some c) (t : String) :
    (s ++ t).data.head? ≠ some '#' := by
  rw [head?_append_left s hs t]
  simp [hc]

lemma ne_of_head_ne {x y : String} {c c' : Char} (hx : x.data.head? = some c)
    (hy : y.data.head? = some c') (h : c ≠ c') : x ≠ y := by
  intro he
  rw [he, hy] at hx
  exact h (Option.some.inj hx).symm

/-! ### Sanitizer helper lemmas -/

lemma prefix_head? {l₁ l₂ : List Char} (h : l₁ <+: l₂) (hne : l₁ ≠ []) :
    l₁.head? = l₂.head? := by
  rcases h with ⟨t, rfl⟩
  cases l₁ with
  | nil => exact absurd rfl hne
  | cons a l => simp

lemma rstripL_pfx (p : Char → Bool) (l : List Char) : rstripL p l <+: l := by
  rcases List.dropWhile_suffix (l := l.reverse) p with ⟨t, ht⟩
  refine ⟨t.reverse, ?_⟩
  rw [rstripL, ← List.reverse_append, ht, List.reverse_reverse]

lemma mem_rstripL {p : Char → Bool} {l : List Char} {x : Char}
    (h : x ∈ rstripL p l) : x ∈ l :=
  (rstripL_pfx p l).sublist.mem h

lemma mem_stripL {O : PyOracle} {l : List Char} {x : Char}
    (h : x ∈ stripL O l) : x ∈ l :=
  (List.dropWhile_suffix (isSpacePy O)).sublist.mem (mem_rstripL h)

lemma stripL_infix (O : PyOracle) (l : List Char) : stripL O l <:+: l := by
  rcases List.dropWhile_suffix (l := l) (isSpacePy O) with ⟨u, hu⟩
  rcases rstripL_pfx (isSpacePy O) (l.dropWhile (isSpacePy O)) with ⟨v, hv⟩
  refine ⟨u, v, ?_⟩
  rw [List.append_assoc, stripL, hv, hu]

lemma dropWhile_eq_self_of_head {p : Char → Bool} {l : List Char}
    (h : ∀ c, l.head? = some c → p c = false) : l.dropWhile p = l := by
  cases l with
  | nil => rfl
  | cons a t => exact List.dropWhile_cons_of_neg (by simp [h a rfl])

lemma rstripL_eq_self {p : Char → Bool} {l : List Char}
    (h : ∀ c, l.getLast? = some c → p c = false) : rstripL p l = l := by
  rw [rstripL, dropWhile_eq_self_of_head, List.reverse_reverse]
  intro c hc
  exact h c (by rwa [List.head?_reverse] at hc)

lemma stripL_eq_self {O : PyOracle} {l : List Char}
    (hh : ∀ c, l.head? = some c → isSpacePy O c = false)
    (hl : ∀ c, l.getLast? = some c → isSpacePy O c = false) : stripL O l = l := by
  rw [stripL, dropWhile_eq_self_of_head hh, rstripL_eq_self hl]

lemma rstripL_getLast {p : Char → Bool} {l : List Char} {c : Char}
    (h : (rstripL p l).getLast? = some c) : p c = false := by
  rw [rstripL, List.getLast?_reverse] at h
  simpa [h] using List.head?_dropWhile_not p l.reverse

lemma stripL_getLast {O : PyOracle} {l : List Char} {c : Char}
    (h : (stripL O l).getLast? = some c) : isSpacePy O c = false :=
  rstripL_getLast h

lemma stripL_head {O : PyOracle} {l : List Char} {c : Char}
    (h : (stripL O l).head? = some c) : isSpacePy O c = false := by
  have hne : stripL O l ≠ [] := by
    intro he
    rw [he] at h
    simp at h
  rw [stripL, prefix_head? (rstripL_pfx _ _) hne] at h
  simpa [h] using List.head?_dropWhile_not (isSpacePy O) l

/-- Adjacent whitespace chars never survive the collapse step. -/
def noAdjSp (O : PyOracle) (l : List Char) : Prop :=
  l.Chain' (fun a b => ¬(isSpacePy O a = true ∧ isSpacePy O b = true))

lemma mem_collapseWs (O : PyOracle) :
    ∀ (l : List Char) (x : Char), x ∈ collapseWs O l →
      x = ' ' ∨ (x ∈ l ∧ isSpacePy O x = false) := by
  intro l
  induction l with
  | nil => intro x hx; simp [collapseWs] at hx
  | cons c rest ih =>
    intro x hx
    cases rest with
    | nil =>
      by_cases hc : isSpacePy O c = true
      · rw [collapseWs, if_pos hc] at hx
        simp only [List.mem_singleton] at hx
        exact Or.inl hx
      · rw [collapseWs, if_neg hc] at hx
        simp only [List.mem_singleton] at hx
        subst hx
        exact Or.inr ⟨List.mem_cons_self _ _, by simpa using hc⟩
    | cons d rest2 =>
      cases hcd : (isSpacePy O c && isSpacePy O d) with
      | true =>
        rw [collapseWs, if_pos hcd] at hx
        rcases ih x hx with h | ⟨hm, hsp⟩
        · exact Or.inl h
        · exact Or.inr ⟨List.mem_cons_of_mem _ hm, hsp⟩
      | false =>
        rw [collapseWs, if_neg (by simp [hcd])] at hx
        rcases List.mem_cons.mp hx with rfl | hx'
        · by_cases hc : isSpacePy O c = true
          · rw [if_pos hc]
            exact Or.inl rfl
          · rw [if_neg hc]
            exact Or.inr ⟨List.mem_cons_self _ _, by simpa using hc⟩
        · rcases ih x hx' with h | ⟨hm, hsp⟩
          · exact Or.inl h
          · exact Or.inr ⟨List.mem_cons_of_mem _ hm, hsp⟩

lemma collapseWs_cons_head (O : PyOracle) :
    ∀ (rest : List Char) (c : Char), ∃ t,
      collapseWs O (c :: rest) = (if isSpacePy O c then ' ' else c) :: t := by
  intro rest
  induction rest with
  | nil =>
    intro c
    refine ⟨[], ?_⟩
    by_cases hc : isSpacePy O c = true <;> simp [collapseWs, hc]
  | cons d rest2 ih =>
    intro c
    cases hcd : (isSpacePy O c && isSpacePy O d) with
    | true =>
      have hcd2 : isSpacePy O c = true ∧ isSpacePy O d = true := by
        simpa [Bool.and_eq_true] using hcd
      have hc : isSpacePy O c = true := hcd2.1
      have hd : isSpacePy O d = true := hcd2.2
      rcases ih d with ⟨t, ht⟩
      refine ⟨t, ?_⟩
      rw [collapseWs, if_pos hcd, ht, if_pos hd, if_pos hc]
    | false =>
      exact ⟨collapseWs O (d :: rest2), by rw [collapseWs, if_neg (by simp [hcd])]⟩

lemma collapseWs_noAdjSp (O : PyOracle) : ∀ (l : List Char),
    noAdjSp O (collapseWs O l) := by
  intro l
  induction l with
  | nil => simp [collapseWs, noAdjSp]
  | cons c rest ih =>
    cases rest with
    | nil =>
      by_cases hc : isSpacePy O c = true <;>
        simp [collapseWs, hc, noAdjSp]
    | cons d rest2 =>
      cases hcd : (isSpacePy O c && isSpacePy O d) with
      | true =>
        rw [noAdjSp, collapseWs, if_pos hcd]
        exact ih
      | false =>
        rcases collapseWs_cons_head O rest2 d with ⟨t, ht⟩
        rw [noAdjSp, collapseWs, if_neg (by simp [hcd]), ht]
        refine List.chain'_cons.mpr ⟨?_, by rw [← ht]; exact ih⟩
        rcases Bool.and_eq_false_iff.mp hcd with hc | hd
        · rw [if_neg (show ¬(isSpacePy O c = true) by simp [hc])]
          exact fun h => by simp [hc] at h
        · rw [if_neg (show ¬(isSpacePy O d = true) by simp [hd])]
          intro h
          rcases h with ⟨_, h2⟩
          simp [hd] at h2

lemma collapseWs_fix (O : PyOracle) : ∀ (l : List Char),
    (∀ x ∈ l, isSpacePy O x = true → x = ' ') → noAdjSp O l →
    collapseWs O l = l := by
  intro l
  induction l with
  | nil => intro _ _; rfl
  | cons c rest ih =>
    intro hb hch
    cases rest with
    | nil =>
      by_cases hc : isSpacePy O c = true
      · rw [collapseWs, if_pos hc, hb c (List.mem_cons_self _ _) hc]
      · rw [collapseWs, if_neg hc]
    | cons d rest2 =>
      have hcd : ¬(isSpacePy O c = true ∧ isSpacePy O d = true) :=
        (List.chain'_cons.mp hch).1
      have hcd' : (isSpacePy O c && isSpacePy O d) = false := by
        cases hc : isSpacePy O c <;> cases hd : isSpacePy O d <;> simp_all
      rw [collapseWs, if_neg (by simp [hcd'])]
      have htail : collapseWs O (d :: rest2) = d :: rest2 :=
        ih (fun x hx => hb x (List.mem_cons_of_mem _ hx)) (List.chain'_cons.mp hch).2
      rw [htail]
      by_cases hc : isSpacePy O c = true
      · rw [if_pos hc, hb c (List.mem_cons_self _ _) hc]
      · rw [if_neg hc]

/-- The invariant satisfied by a sanitized filename that did not fall
back to `Untitled`: only allowed, non-reserved chars; every whitespace
char is a single ASCII space with no two adjacent; no leading or
trailing whitespace; at most 250 chars. -/
structure SanitizedShape (O : PyOracle) (l : List Char) : Prop where
  allowed : ∀ c ∈ l, isAllowedChar O c = true
  noRes : ∀ c ∈ l, c ∉ reservedChars
  blank : ∀ c ∈ l, isSpacePy O c = true → c = ' '
  noAdj : noAdjSp O l
  headOk : ∀ c, l.head? = some c → isSpacePy O c = false
  lastOk : ∀ c, l.getLast? = some c → isSpacePy O c = false
  lenLe : l.length ≤ 250

lemma sanitize_filename_cases (O : PyOracle) (s : String) :
    sanitize_filename O s = "Untitled" ∨
    (∃ l, sanitize_filename O s = ⟨l⟩ ∧ l ≠ [] ∧ SanitizedShape O l) := by
  by_cases h0 : stripL O s.data = []
  · left
    rw [sanitize_filename, if_pos h0]
  · set s1 := s.data.filter (fun c => !(c ∈ reservedChars)) with hs1
    set s2 := s1.filter (isAllowedChar O) with hs2
    set m := collapseWs O s2 with hm
    set s3 := stripL O m with hs3
    set s4 := (if 250 < s3.length then rstripL (isSpacePy O) (s3.take 250) else s3)
      with hs4
    have hdef : sanitize_filename O s = if s4 = [] then "Untitled" else ⟨s4⟩ := by
      rw [sanitize_filename, if_neg h0]
    by_cases h4 : s4 = []
    · left
      rw [hdef, if_pos h4]
    · right
      have hpre : s4 <+: s3 := by
        rw [hs4]
        by_cases ht : 250 < s3.length
        · rw [if_pos ht]
          exact (rstripL_pfx _ _).trans (List.take_prefix 250 s3)
        · rw [if_neg ht]
      have hmem : ∀ c ∈ s4, c = ' ' ∨ (c ∈ s2 ∧ isSpacePy O c = false) := by
        intro c hc
        have hc3 : c ∈ s3 := hpre.sublist.subset hc
        exact mem_collapseWs O s2 c (mem_stripL (hs3 ▸ hc3))
      refine ⟨s4, by rw [hdef, if_neg h4], h4, ?_, ?_, ?_, ?_, ?_, ?_, ?_⟩
      · intro c hc
        rcases hmem c hc with rfl | ⟨h2, _⟩
        · rfl
        · exact (List.mem_filter.mp (hs2 ▸ h2)).2
      · intro c hc
        rcases hmem c hc with rfl | ⟨h2, _⟩
        · decide
        · have h1 : c ∈ s1 := (List.mem_filter.mp (hs2 ▸ h2)).1
          have := (List.mem_filter.mp (hs1 ▸ h1)).2
          simpa using this
      · intro c hc hsp
        rcases hmem c hc with rfl | ⟨_, hns⟩
        · rfl
        · rw [hns] at hsp
          cases hsp
      · have hchain3 : noAdjSp O s3 :=
          List.Chain'.infix (collapseWs_noAdjSp O s2) (hs3 ▸ stripL_infix O m)
        exact List.Chain'.prefix hchain3 hpre
      · intro c hc
        rw [prefix_head? hpre h4] at hc
        exact stripL_head (hs3 ▸ hc)
      · intro c hc
        rw [hs4] at hc
        by_cases ht : 250 < s3.length
        · rw [if_pos ht] at hc
          exact rstripL_getLast hc
        · rw [if_neg ht] at hc
          exact stripL_getLast (hs3 ▸ hc)
      · rw [hs4]
        by_cases ht : 250 < s3.length
        · rw [if_pos ht]
          calc (rstripL (isSpacePy O) (s3.take 250)).length
              ≤ (s3.take 250).length := (rstripL_pfx _ _).length_le
            _ ≤ 250 := by simp
        · rw [if_neg ht]
          omega

lemma sanitize_filename_fix (O : PyOracle) (s : String) (hne : s.data ≠ [])
    (hs : SanitizedShape O s.data) : sanitize_filename O s = s := by
  have hstrip : stripL O s.data = s.data := stripL_eq_self hs.headOk hs.lastOk
  have h0 : ¬(stripL O s.data = []) := by
    rw [hstrip]
    exact hne
  have h1 : s.data.filter (fun c => !(c ∈ reservedChars)) = s.data :=
    List.filter_eq_self.mpr (fun a ha => by simpa using hs.noRes a ha)
  have h2 : s.data.filter (isAllowedChar O) = s.data :=
    List.filter_eq_self.mpr hs.allowed
  have hcol : collapseWs O s.data = s.data := collapseWs_fix O s.data hs.blank hs.noAdj
  have hlen : ¬(250 < s.data.length) := by
    have := hs.lenLe
    omega
  rw [sanitize_filename, if_neg h0]
  simp only [h1, h2, hcol, hstrip, if_neg hlen, if_neg hne]

/-- Splitting a conditional segment of the line list. -/
lemma forall_mem_ite_nil {P : String → Prop} {c : Prop} [Decidable c] {l : List String}
    (h : ∀ x ∈ l, P x) : ∀ x ∈ (if c then l else []), P x := by
  by_cases hc : c
  · rw [if_pos hc]; exact h
  · rw [if_neg hc]; exact fun x hx => absurd hx (List.not_mem_nil x)

/-- No line of the YAML front matter starts with `#`: the section
headings can therefore never occur inside the metadata block. -/
lemma metadata_head_no_hash (O : PyOracle) (row : Record) :
    ∀ x ∈ metadataLines O row, x.data.head? ≠ some '#' := by
  simp only [metadataLines, List.forall_mem_append]
  repeat' apply And.intro
  · decide
  · refine forall_mem_ite_nil ?_
    intro x hx
    simp only [List.mem_cons, List.not_mem_nil, or_false] at hx
    rcases hx with rfl | rfl
    · decide
    · exact append_head_ne_hash _ (by decide)
        (head?_append_left "- '" (c := '-') rfl _) _
  · refine forall_mem_ite_nil ?_
    intro x hx
    simp only [List.mem_singleton] at hx
    subst hx
    exact append_head_ne_hash _ (by decide)
      (head?_append_left "created: '" (c := 'c') rfl _) _
  · refine forall_mem_ite_nil ?_
    intro x hx
    simp only [List.mem_singleton] at hx
    subst hx
    exact append_head_ne_hash "description: " (by decide) rfl _
  · decide
  · refine forall_mem_ite_nil ?_
    intro x hx
    simp only [List.mem_singleton] at hx
    subst hx
    exact append_head_ne_hash "source: " (by decide) rfl _
  · decide
  · intro x hx
    rcases List.mem_map.mp hx with ⟨t, _, rfl⟩
    exact append_head_ne_hash "- " (by decide) rfl _
  · intro x hx
    simp only [List.mem_cons, List.not_mem_nil, or_false] at hx
    rcases hx with rfl | rfl
    · exact append_head_ne_hash "title: " (by decide) rfl _
    · decide

/-! ## Claims -/

/-- **C1** (counterexample): on a record whose title is whitespace-only,
the metadata block's title line is `title: ` with an *empty* value; the
claimed `Untitled` default never appears in the metadata block. -/
theorem C1_counterexample :
    metadataLines O0 { title := "   " } =
      ["---", "published: ''", "tags:", "- clippings", "title: ", "---"] ∧
    "title: Untitled" ∉ metadataLines O0 { title := "   " } := by
  decide

/-- **C1** (amended): for every input record, the metadata block ends
with a title field whose value equals the trimmed input title — also
when that trimmed title is empty, in which case the emitted value is
the empty string (the `Untitled` default applies only to the output
file name, not to the document's title field). -/
theorem C1_metadata_ends_with_title (O : PyOracle) (row : Record) :
    ∃ pre, metadataLines O row = pre ++ ["title: " ++ stripPy O row.title, "---"] :=
  ⟨_, rfl⟩

/-- **C2** (counterexample): the driver's return value does not comprise
the list of file names written: two sources that produce different
files have identical return values, so the return value determines only
the two counts. -/
theorem C2_counterexample :
    (convert_csv_to_markdown O0 (fun _ => true)
        { openOk := true, events := [.ok { title := "Alpha" }] }).returned =
      (convert_csv_to_markdown O0 (fun _ => true)
        { openOk := true, events := [.ok { title := "Beta" }] }).returned ∧
    (convert_csv_to_markdown O0 (fun _ => true)
        { openOk := true, events := [.ok { title := "Alpha" }] }).filesWritten ≠
      (convert_csv_to_markdown O0 (fun _ => true)
        { openOk := true, events := [.ok { title := "Beta" }] }).filesWritten := by
  decide

/-- **C2** (amended): the driver's return value comprises exactly the
count of successful conversions and the count of failed conversions;
the list of file names written is a filesystem effect (printed for
reporting) but is not part of the return value. -/
theorem C2_returns_counts (O : PyOracle) (wOk : Record → Bool) (rs : List Record) :
    (convert_csv_to_markdown O wOk { openOk := true, events := rs.map .ok }).returned =
      ((rs.filter wOk).length, (rs.filter (fun r => !wOk r)).length) ∧
    (convert_csv_to_markdown O wOk { openOk := true, events := rs.map .ok }).filesWritten =
      (rs.filter wOk).map (outputFilename O) := by
  rw [convert_rows_spec]
  exact ⟨rfl, rfl⟩

/-- **C4**: whenever the batch driver reports a batch-level failure
(the source cannot be opened, or a read error occurs anywhere in the
stream — the row-counting pass reads the whole source before the first
record is processed, so any read error surfaces before any write), it
returns zero successes and one failure and no output file has been
written. -/
theorem C4_batch_failure (O : PyOracle) (wOk : Record → Bool) (src : CsvSource)
    (h : src.openOk = false ∨ Except.error () ∈ src.events) :
    convert_csv_to_markdown O wOk src = { returned := (0, 1), filesWritten := [] } := by
  rcases h with h | h
  · simp [convert_csv_to_markdown, h]
  · have hany : src.events.any
        (fun e => match e with | .error _ => true | .ok _ => false) = true :=
      List.any_eq_true.mpr ⟨_, h, rfl⟩
    by_cases ho : src.openOk <;> simp [convert_csv_to_markdown, ho, hany]

/-- Witness for **C4** at concrete inputs: an unopenable source, and a
source with one good row followed by a read error. -/
theorem C4_batch_failure_witness :
    convert_csv_to_markdown O0 (fun _ => true) { openOk := false, events := [] } =
      { returned := (0, 1), filesWritten := [] } ∧
    convert_csv_to_markdown O0 (fun _ => true)
        { openOk := true, events := [.ok { title := "A" }, .error ()] } =
      { returned := (0, 1), filesWritten := [] } :=
  ⟨C4_batch_failure O0 _ _ (Or.inl rfl),
   C4_batch_failure O0 _ _ (Or.inr (by simp))⟩

/-- **C3** (counterexample): the domain extractor does not leave
characters elsewhere in the host untouched: on
`https://en.www.example.com/a` the host is `en.www.example.com`, a
leading-prefix strip would leave it unchanged, but the code removes
the interior `www.` and returns `en.example.com`. -/
theorem C3_counterexample :
    pyNetloc O0 "https://en.www.example.com/a" = some "en.www.example.com" ∧
    stripLeadingWww "en.www.example.com" = "en.www.example.com" ∧
    extract_domain O0 "https://en.www.example.com/a" = "en.example.com" := by
  decide

/-- **C3** (amended): for every URL string, the extractor returns the
URL's host component with *every occurrence* of the substring `www.`
removed (not only a leading prefix); it returns the empty string when
the URL is empty or whitespace-only, when parsing raises, or when
there is no host; and it returns `example.com` for
`https://www.example.com/a/b`. -/
theorem C3_domain_extractor (O : PyOracle) (url : String) :
    (stripPy O url = "" → extract_domain O url = "") ∧
    (pyNetloc O url = none → extract_domain O url = "") ∧
    (stripPy O url ≠ "" → ∀ d, pyNetloc O url = some d →
      extract_domain O url = pyReplace d "www." "") ∧
    extract_domain O "https://www.example.com/a/b" = "example.com" := by
  refine ⟨?_, ?_, ?_, by rfl⟩
  · intro h
    simp [extract_domain, h]
  · intro h
    by_cases hu : url = "" <;> by_cases hs : stripPy O url = "" <;>
      simp [extract_domain, hu, hs, h]
  · intro hs d hd
    have hu : url ≠ "" := by
      intro h
      exact hs (by simp [h, stripPy, stripL, rstripL])
    by_cases hd0 : d = ""
    · subst hd0
      simp [extract_domain, hu, hs, hd]
      rfl
    · simp [extract_domain, hu, hs, hd, hd0]

/-- Witness for **C3** at a concrete input, discharging its
hypotheses: the host of `https://www.example.com/a/b` is
`www.example.com` and the result is its `www.`-free form. -/
theorem C3_domain_extractor_witness :
    extract_domain O0 "https://www.example.com/a/b" = pyReplace "www.example.com" "www." "" :=
  (C3_domain_extractor O0 "https://www.example.com/a/b").2.2.1 (by decide)
    "www.example.com" (by decide)

/-- **C8**: the domain extractor and the date formatter are total: any
parse failure (and any empty input) yields the empty string rather
than an error, and the valid timestamp `2023-05-01T12:00:00Z` is
rendered as its calendar-date portion `2023-05-01`. -/
theorem C8_malformed_degrade (O : PyOracle) (s u : String) :
    (fromisoformat? (pyReplace s "Z" "+00:00") = none → format_date O s = "") ∧
    (pyNetloc O u = none → extract_domain O u = "") ∧
    format_date O "" = "" ∧
    extract_domain O "" = "" ∧
    format_date O "garbage" = "" ∧
    extract_domain O "ht!tp://" = "" ∧
    format_date O "2023-05-01T12:00:00Z" = "2023-05-01" := by
  refine ⟨?_, ?_, by rfl, by rfl, by rfl, by rfl, by rfl⟩
  · intro h
    by_cases hu : s = "" <;> by_cases hs : stripPy O s = "" <;>
      simp [format_date, hu, hs, h]
  · intro h
    by_cases hu : u = "" <;> by_cases hs : stripPy O u = "" <;>
      simp [extract_domain, hu, hs, h]

/-- Witness for **C8** at concrete malformed inputs, discharging its
hypotheses. -/
theorem C8_malformed_degrade_witness :
    format_date O0 "05/01/2023" = "" ∧ extract_domain O0 "http://[::1" = "" :=
  ⟨(C8_malformed_degrade O0 "05/01/2023" "x").1 (by decide),
   (C8_malformed_degrade O0 "x" "http://[::1").2.1 (by decide)⟩

/-- **C6**: for every raw tags string and folder string, the tag list
contains the tag `clippings` exactly once — duplicate user tags and a
`Clippings`-like folder are normalized to lower case and removed by
the dedup pass — and the list is never empty. -/
theorem C6_clippings_once (O : PyOracle) (tags_str folder : String) :
    (format_tags O tags_str folder).count "clippings" = 1 ∧
    1 ≤ (format_tags O tags_str folder).length := by
  have hmem : "clippings" ∈ format_tags O tags_str folder := by
    unfold format_tags
    rw [mem_dedupKeepFirst]
    refine Or.inr ?_
    split
    · split <;> simp
    · split <;> simp
  have hnd : (format_tags O tags_str folder).Nodup :=
    nodup_dedupKeepFirst _ [] List.nodup_nil
  exact ⟨List.count_eq_one_of_mem hnd hmem, List.length_pos.mpr
    (List.ne_nil_of_mem hmem)⟩

/-- **C7**: a folder that is empty or case-insensitively `unsorted`
contributes no folder-derived tag (the result coincides with that of
an empty folder); any other folder's lower-cased, hyphenated form is
in the tag list; in particular folder `Tech News` yields the tag
`tech-news`. -/
theorem C7_folder_tag (O : PyOracle) (tags_str folder : String) :
    ((folder = "" ∨ lowerPy O folder = "unsorted") →
      format_tags O tags_str folder = format_tags O tags_str "") ∧
    ((folder ≠ "" ∧ lowerPy O folder ≠ "unsorted") →
      hyphenateLower O folder ∈ format_tags O tags_str folder) ∧
    "tech-news" ∈ format_tags O "" "Tech News" := by
  refine ⟨?_, ?_, ?_⟩
  · intro h
    have hcond : ¬(folder ≠ "" ∧ lowerPy O folder ≠ "unsorted") := by
      rcases h with h | h <;> simp [h]
    have hcond' : ¬(("" : String) ≠ "" ∧ lowerPy O "" ≠ "unsorted") := by simp
    simp only [format_tags]
    rw [if_neg hcond, if_neg hcond']
  · intro h
    unfold format_tags
    rw [mem_dedupKeepFirst, if_pos h]
    refine Or.inr ?_
    split <;> simp
  · show "tech-news" ∈ dedupKeepFirst [] ["clippings", "tech-news"]
    rw [mem_dedupKeepFirst]
    simp

/-- Witness for **C7** at concrete inputs, discharging both
hypotheses: folder `Unsorted` adds nothing, folder `Tech News` adds
`tech-news`. -/
theorem C7_folder_tag_witness :
    format_tags O0 "x,y" "Unsorted" = format_tags O0 "x,y" "" ∧
    hyphenateLower O0 "Tech News" ∈ format_tags O0 "x,y" "Tech News" :=
  ⟨(C7_folder_tag O0 "x,y" "Unsorted").1 (Or.inr (by decide)),
   (C7_folder_tag O0 "x,y" "Tech News").2.1 ⟨by decide, by decide⟩⟩

/-- **C9**: on a record whose excerpt, note and highlights are all
empty after trimming, the document has no Summary section and no
Highlights section, and it has a Source section exactly when the
trimmed url is non-empty. -/
theorem C9_empty_sections (O : PyOracle) (row : Record)
    (he : stripPy O row.excerpt = "") (hn : stripPy O row.note = "")
    (hhl : stripPy O row.highlights = "") :
    "## Summary" ∉ contentLines O row ∧
    "## Highlights" ∉ contentLines O row ∧
    ("## Source" ∈ contentLines O row ↔ stripPy O row.url ≠ "") := by
  have hbody : bodyLines O row =
      (if stripPy O row.url ≠ "" then
        ["", "## Source", "", "[View Original](" ++ stripPy O row.url ++ ")"]
      else []) := by
    simp [bodyLines, he, hn, hhl]
  have hmeta := metadata_head_no_hash O row
  have hsrc : ∀ y ∈ (["", "## Source", "",
      "[View Original](" ++ stripPy O row.url ++ ")"] : List String),
      y = "" ∨ y = "## Source" ∨ y.data.head? = some '[' := by
    intro y hy
    simp only [List.mem_cons, List.not_mem_nil, or_false] at hy
    rcases hy with rfl | rfl | rfl | rfl
    · exact Or.inl rfl
    · exact Or.inr (Or.inl rfl)
    · exact Or.inl rfl
    · exact Or.inr (Or.inr (head?_append_left "[View Original](" (c := '[') rfl _))
  refine ⟨?_, ?_, ?_, ?_⟩
  · intro hmem
    rcases List.mem_append.mp hmem with hmem | hmem
    · exact hmeta _ hmem rfl
    · rw [hbody] at hmem
      by_cases hu : stripPy O row.url ≠ ""
      · rw [if_pos hu] at hmem
        rcases hsrc _ hmem with h | h | h
        · exact absurd h (by decide)
        · exact absurd h (by decide)
        · simp at h
      · rw [if_neg hu] at hmem
        exact absurd hmem (List.not_mem_nil _)
  · intro hmem
    rcases List.mem_append.mp hmem with hmem | hmem
    · exact hmeta _ hmem rfl
    · rw [hbody] at hmem
      by_cases hu : stripPy O row.url ≠ ""
      · rw [if_pos hu] at hmem
        rcases hsrc _ hmem with h | h | h
        · exact absurd h (by decide)
        · exact absurd h (by decide)
        · simp at h
      · rw [if_neg hu] at hmem
        exact absurd hmem (List.not_mem_nil _)
  · intro hmem
    rcases List.mem_append.mp hmem with hmem | hmem
    · exact absurd rfl (hmeta _ hmem)
    · rw [hbody] at hmem
      by_cases hu : stripPy O row.url ≠ ""
      · exact hu
      · rw [if_neg hu] at hmem
        exact absurd hmem (List.not_mem_nil _)
  · intro hu
    refine List.mem_append.mpr (Or.inr ?_)
    rw [hbody, if_pos hu]
    simp

/-- Witness for **C9** at a concrete record with a url and nothing
else, discharging the three emptiness hypotheses. -/
theorem C9_empty_sections_witness :
    "## Summary" ∉ contentLines O0 { url := "https://x.com" } ∧
    "## Highlights" ∉ contentLines O0 { url := "https://x.com" } ∧
    ("## Source" ∈ contentLines O0 { url := "https://x.com" } ↔
      stripPy O0 ({ url := "https://x.com" } : Record).url ≠ "") :=
  C9_empty_sections O0 { url := "https://x.com" } (by decide) (by decide) (by decide)

/-- **C5**: for every input string (empty and non-ASCII included, and
for every interpretation of the non-ASCII character classes), the
sanitized filename is non-empty, at most 250 characters long, and
contains none of the reserved path characters. -/
theorem C5_sanitize_guarantees (O : PyOracle) (s : String) :
    sanitize_filename O s ≠ "" ∧
    (sanitize_filename O s).length ≤ 250 ∧
    ∀ c ∈ (sanitize_filename O s).data, c ∉ reservedChars := by
  rcases sanitize_filename_cases O s with h | ⟨l, h, hne, hs⟩ <;> rw [h]
  · exact ⟨by decide, by decide, by decide⟩
  · refine ⟨?_, hs.lenLe, hs.noRes⟩
    intro he
    exact hne (congrArg String.data he)

/-- **C10**: the filename sanitizer is idempotent — sanitizing its own
output returns that output unchanged. -/
theorem C10_sanitize_idempotent (O : PyOracle) (s : String) :
    sanitize_filename O (sanitize_filename O s) = sanitize_filename O s := by
  rcases sanitize_filename_cases O s with h | ⟨l, h, hne, hs⟩
  · rw [h]
    rfl
  · rw [h]
    exact sanitize_filename_fix O ⟨l⟩ hne hs
